import Mathlib

/-!
A verification development for the go-sfab SSH orchestration fabric.

The definitions below are a shallow embedding of the Go source:

* byte-level wire helpers (`binary.BigEndian`, `ssh.Marshal` / `ssh.Unmarshal`
  of single-string structs) are modelled over `List Nat` byte sequences;
* the final-generation `KeyMaster` (fingerprint -> subject -> authorization
  record) and the first-generation `KeyMaster` (marshalled-key -> subject ->
  bool) are modelled with `Option`-wrapped function maps, mirroring Go's
  nil-map checks;
* `Hub.Send`, the `connection` dispatch loop, `connection.Hangup` and the
  `session` response machinery are modelled as pure state-passing functions;
  scheduler nondeterminism (the `select` races and goroutine interleavings)
  is made explicit through oracle parameters and sets of possible traces.

Go byte slices are `List Nat` with each element a byte value; Go `string`
and `[]byte` convert to one another byte-for-byte, so both sides of that
conversion use the same `List Nat`.
-/

/-- Big-endian 4-byte encoding of the low 32 bits of a natural number.
Models `binary.BigEndian.PutUint32` applied to `uint32(n)`. -/
def toBE4 (n : Nat) : List Nat :=
  [n / 2 ^ 24 % 256, n / 2 ^ 16 % 256, n / 2 ^ 8 % 256, n % 256]

/-- Models `binary.BigEndian.Uint32`: reads the first four bytes as a
big-endian unsigned 32-bit integer.  Go panics when fewer than four bytes
are available; that case is `none` here. -/
def bigEndianUint32 (b : List Nat) : Option Nat :=
  match b with
  | b0 :: b1 :: b2 :: b3 :: _ =>
      some (b0 % 256 * 2 ^ 24 + b1 % 256 * 2 ^ 16 + b2 % 256 * 2 ^ 8 + b3 % 256)
  | _ => none

/-- Models `x/crypto/ssh` wire-format string parsing (`parseString`):
a 4-byte big-endian length followed by that many bytes.  Returns the
string's bytes and the remaining input, or `none` on underflow. -/
def parseString (b : List Nat) : Option (List Nat × List Nat) :=
  match b with
  | b0 :: b1 :: b2 :: b3 :: rest =>
      let len := b0 % 256 * 2 ^ 24 + b1 % 256 * 2 ^ 16 + b2 % 256 * 2 ^ 8 + b3 % 256
      if len ≤ rest.length then some (rest.take len, rest.drop len) else none
  | _ => none

/-- Models `ssh.Marshal` of a one-field struct whose field is a Go `string`
(the `exec` request payload `struct{ Command string }`): an SSH wire string,
i.e. a 4-byte big-endian length followed by the bytes verbatim. -/
def sshMarshalString (p : List Nat) : List Nat :=
  toBE4 p.length ++ p

/-- Models `ssh.Unmarshal` into `struct{ Value []byte }` (the Agent side of
the `exec` payload): parse one SSH wire string and return its bytes. -/
def sshUnmarshalBytes (b : List Nat) : Option (List Nat) :=
  (parseString b).map (fun r => r.1)

/-- Models `exited` from util.go: encode the Handler's return code as a
4-byte big-endian unsigned integer.  Go's `uint32(rc)` truncates the
(64-bit, possibly negative) `int` to its low 32 bits. -/
def exited (rc : Int) : List Nat :=
  toBE4 (rc % 2 ^ 32).toNat

/-! ## KeyMaster (final generation, src/unnamed/part_014)

The final-generation `KeyMaster` maps a key fingerprint to a map from
subject to an authorization record `{disposition, publicKey}`.  Go's
`nil`-able maps are modelled as `Option`-wrapped function maps.  A `Key`
is identified by its SHA-256 fingerprint string (`ssh.FingerprintSHA256`
of its wire encoding), which is the only attribute the KeyMaster logic
inspects.  -/

/-- The three-valued authorization disposition from part_014. -/
inductive disposition where
  | UnknownDisposition
  | Authorized
  | NotAuthorized
deriving DecidableEq, Repr

/-- An SSH public key, represented by its canonical SHA-256 fingerprint
string (the KeyMaster indexes keys by `ssh.FingerprintSHA256(key.sshpub)`
and never inspects any other attribute). -/
structure Key where
  fp : String
deriving DecidableEq, Repr

/-- An authorization record: the disposition together with the original
public key, retained for later approval. -/
structure authorization where
  disposition : disposition
  publicKey : Key
deriving DecidableEq, Repr

/-- The final-generation KeyMaster: a strictness flag and a (nil-able) map
of fingerprint -> subject -> authorization record. -/
structure KeyMaster where
  strict : Bool
  keys : Option (String → Option (String → Option authorization))

/-- Lookup helper: the record stored under fingerprint `k` and subject `s`
(`none` when the outer map is nil, the fingerprint is untracked, or the
subject has no record). -/
def KeyMaster.lookup (m : KeyMaster) (k s : String) : Option authorization :=
  match m.keys with
  | none => none
  | some keys =>
    match keys k with
    | none => none
    | some inner => inner s

/-- The per-subject loop body of `KeyMaster.track`: create the record in
state `UnknownDisposition` when absent, then overwrite the disposition
when `disp` is not `UnknownDisposition`. -/
def trackStep (key : Key) (disp : disposition)
    (inner : String → Option authorization) (s : String) : String → Option authorization :=
  let created : String → Option authorization :=
    match inner s with
    | none => fun t => if t = s then some ⟨disposition.UnknownDisposition, key⟩ else inner t
    | some _ => inner
  if disp ≠ disposition.UnknownDisposition then
    match created s with
    | some a => fun t => if t = s then some ⟨disp, a.publicKey⟩ else created t
    | none => created
  else created

/-- The subjects loop of `KeyMaster.track`, folded over the inner
(subject -> record) map for one fingerprint. -/
def trackFold (key : Key) (disp : disposition) (subjects : List String)
    (inner : String → Option authorization) : String → Option authorization :=
  subjects.foldl (trackStep key disp) inner

/-- Models `KeyMaster.track` from part_014: compute the fingerprint, materialise
the nil maps, run the subjects loop, and return the updated KeyMaster
together with the fingerprint string. -/
def KeyMaster.track (m : KeyMaster) (key : Key) (disp : disposition)
    (subjects : List String) : KeyMaster × String :=
  let k := key.fp
  let keys0 := m.keys.getD (fun _ => none)
  let inner0 := (keys0 k).getD (fun _ => none)
  let inner1 := trackFold key disp subjects inner0
  ({ m with keys := some (fun j => if j = k then some inner1 else keys0 j) }, k)

/-- Models `KeyMaster.authorized` from part_014: true iff a record exists for the
key's fingerprint and the subject, with disposition `Authorized`. -/
def KeyMaster.authorized (m : KeyMaster) (subject : String) (key : Key) : Bool :=
  match m.keys with
  | none => false
  | some keys =>
    match keys key.fp with
    | none => false
    | some inner =>
      match inner subject with
      | none => false
      | some v => decide (v.disposition = disposition.Authorized)

/-- Models `KeyMaster.Authorized` from part_014; a nil `*Key` (here `none`) is
never authorized. -/
def KeyMaster.Authorized (m : KeyMaster) (subject : String) (key : Option Key) : Bool :=
  match key with
  | none => false
  | some k => m.authorized subject k

/-- Models `KeyMaster.Authorize` from part_014: track with disposition
`Authorized` (no-op on a nil key). -/
def KeyMaster.Authorize (m : KeyMaster) (key : Option Key) (subjects : List String) : KeyMaster :=
  match key with
  | none => m
  | some k => (m.track k disposition.Authorized subjects).1

/-- Models `KeyMaster.Deauthorize` from part_014: track with disposition
`NotAuthorized` (no-op on a nil key). -/
def KeyMaster.Deauthorize (m : KeyMaster) (key : Option Key) (subjects : List String) : KeyMaster :=
  match key with
  | none => m
  | some k => (m.track k disposition.NotAuthorized subjects).1

/-- The extension name under which the server auth callback stores the
observed key's fingerprint. -/
def PublicKeyExtensionName : String := "sfab-pubkey"

/-- SSH permissions, reduced to the extensions map the code populates. -/
structure Permissions where
  extensions : List (String × String)
deriving DecidableEq, Repr

/-- Models `KeyMaster.userKeyCallback` from part_014: track the observed key for
the connecting user with disposition `UnknownDisposition`, then fail
exactly when strict and the pair is not authorized; the returned
permissions carry the fingerprint under `PublicKeyExtensionName`.  The
state threading mirrors Go's in-place mutation: the authorization check
runs on the post-track KeyMaster. -/
def KeyMaster.userKeyCallback (m : KeyMaster) (user : String) (key : Key) :
    KeyMaster × Permissions × Option String :=
  let t := m.track key disposition.UnknownDisposition [user]
  let err : Option String :=
    if t.1.strict && !(t.1.authorized user key) then some "unknown or unauthorized agent key"
    else none
  (t.1, ⟨[(PublicKeyExtensionName, t.2)]⟩, err)

/-! ## Session responses (src/message.go, src/unnamed/part_004)

`session.finish` runs two drain goroutines (stdout and stderr), waits for
either the exit status (from `serviceRequests` via the `exit` channel) or
the reaper, then — after `wg.Wait()` has joined both drains — sends exactly
one final Response and closes the reply channel.  A drained stream is
modelled as its list of scanner lines; scheduler nondeterminism appears as
the set of interleavings of the two per-stream FIFO response sequences. -/

/-- The `from` tag of a Response (message.go; `from` is a Lean keyword). -/
inductive ResponseFrom where
  | fromInit
  | fromStdout
  | fromStderr
  | fromExit
  | fromError
deriving DecidableEq, Repr

/-- Errors a session can report in a terminal Error Response.  The exact
`fmt.Errorf` strings are libraries of the wrapped data; only the structure
is modelled. -/
inductive RemoteErr where
  | unmarshalFailed
  | signalled (signal : List Nat) (errmsg : List Nat)
  | plain (errmsg : List Nat)
deriving DecidableEq, Repr

/-- The error carried by a terminal Error Response: either an error
forwarded from the exit channel, or the reaper's premature-disconnect. -/
inductive SessionErr where
  | remote (e : RemoteErr)
  | prematureDisconnect
deriving DecidableEq, Repr

/-- A Response record (message.go): a tag plus the fields the producers
populate (unused fields keep their Go zero values). -/
structure Response where
  from_ : ResponseFrom
  text : String
  err : Option SessionErr
  rc : Int
deriving DecidableEq, Repr

/-- Accessor `Response.IsStdout` from message.go. -/
def Response.IsStdout (r : Response) : Bool := r.from_ = ResponseFrom.fromStdout

/-- Accessor `Response.IsStderr` from message.go. -/
def Response.IsStderr (r : Response) : Bool := r.from_ = ResponseFrom.fromStderr

/-- Accessor `Response.IsExit` from message.go. -/
def Response.IsExit (r : Response) : Bool := r.from_ = ResponseFrom.fromExit

/-- Accessor `Response.IsError` from message.go. -/
def Response.IsError (r : Response) : Bool := r.from_ = ResponseFrom.fromError

/-- The status record sent on the session's `exit` channel (part_004). -/
structure status where
  code : Int
  err : Option RemoteErr
deriving DecidableEq, Repr

/-- An inbound SSH request on the session channel (Go `ssh.Request`). -/
structure SshRequest where
  rtype : String
  wantReply : Bool
  payload : List Nat
deriving DecidableEq, Repr

/-- Result of `session.serviceRequests`: the goroutine panics when the Go
code indexes a short `exit-status` payload, otherwise it terminates having
sent at most one status on the `exit` channel. -/
inductive SvcResult where
  | panicked
  | finished (st : Option status)
deriving DecidableEq, Repr

/-- Models `ssh.Unmarshal` of the `exit-signal` wire struct
`{Signal string; CoreDumped bool; Error string; Lang string}`. -/
def parseExitSignal (b : List Nat) : Option (List Nat × Bool × List Nat × List Nat) :=
  match parseString b with
  | none => none
  | some (sig, r1) =>
    match r1 with
    | [] => none
    | cd :: r2 =>
      match parseString r2 with
      | none => none
      | some (emsg, r3) =>
        match parseString r3 with
        | none => none
        | some (lang, _) => some (sig, cd ≠ 0, emsg, lang)

/-- Models `session.serviceRequests` from part_004: scan the inbound requests for
the first `exit-status` or `exit-signal`, capture a status and return;
reply false to anything else.  `exit-status` parses the first four payload
bytes big-endian (Go panics on a shorter payload). -/
def serviceRequests : List SshRequest → SvcResult
  | [] => SvcResult.finished none
  | r :: rs =>
    if r.rtype = "exit-status" then
      match bigEndianUint32 r.payload with
      | some n => SvcResult.finished (some ⟨Int.ofNat n, none⟩)
      | none => SvcResult.panicked
    else if r.rtype = "exit-signal" then
      match parseExitSignal r.payload with
      | none => SvcResult.finished (some ⟨0, some RemoteErr.unmarshalFailed⟩)
      | some (sig, _, emsg, _) =>
        if sig ≠ [] then SvcResult.finished (some ⟨0, some (RemoteErr.signalled sig emsg)⟩)
        else SvcResult.finished (some ⟨0, some (RemoteErr.plain emsg)⟩)
    else serviceRequests rs

/-- Which arm of `session.finish`'s `select` fired: the exit channel
delivered a status, or the reaper fired first. -/
inductive Outcome where
  | exitedWith (st : status)
  | reaped
deriving DecidableEq, Repr

/-- The outcome of the `select` race in `session.finish`, with the race
decided by the `reaperFirst` oracle.  When `serviceRequests` never sends a
status, only the reaper arm can fire. -/
def sessionOutcome (reqs : List SshRequest) (reaperFirst : Bool) : Outcome :=
  match serviceRequests reqs with
  | SvcResult.finished (some st) => if reaperFirst then Outcome.reaped else Outcome.exitedWith st
  | _ => Outcome.reaped

/-- The single final Response `session.finish` sends: `Exit` on a normal
status, `Error` on a status carrying an error, `Error` (premature
disconnect) when the reaper fired first. -/
def finalResponse : Outcome → Response
  | Outcome.exitedWith st =>
    match st.err with
    | some e => ⟨ResponseFrom.fromError, "", some (SessionErr.remote e), 0⟩
    | none => ⟨ResponseFrom.fromExit, "", none, st.code⟩
  | Outcome.reaped => ⟨ResponseFrom.fromError, "", some SessionErr.prematureDisconnect, 0⟩

/-- Models `session.drain` from part_004: one Response per scanner line of the
given stream. -/
def drain (whence : ResponseFrom) (lines : List String) : List Response :=
  lines.map (fun l => ⟨whence, l, none, 0⟩)

/-- All interleavings of two sequences that preserve each sequence's
internal order (the possible schedules of two producer goroutines sharing
one channel). -/
def interleavings {α : Type} : List α → List α → List (List α)
  | [], ys => [ys]
  | x :: xs, [] => [x :: xs]
  | x :: xs, y :: ys =>
      (interleavings xs (y :: ys)).map (fun t => x :: t) ++
      (interleavings (x :: xs) ys).map (fun t => y :: t)
termination_by xs ys => xs.length + ys.length
decreasing_by
  all_goals simp only [List.length_cons]
  all_goals omega

/-- The complete history of a Message's responses channel: everything sent
on it, and whether it was closed. -/
structure ChannelHist where
  sent : List Response
  closed : Bool
deriving DecidableEq, Repr, Inhabited

/-- The possible response-channel histories produced by `session.finish`
given the stdout lines, the stderr lines and the select outcome: some
interleaving of the two drains, then — after `wg.Wait()` — the single final
Response, then `close(reply)`. -/
def finishHists (outs errs : List String) (oc : Outcome) : List ChannelHist :=
  (interleavings (drain ResponseFrom.fromStdout outs) (drain ResponseFrom.fromStderr errs)).map
    (fun t => ⟨t ++ [finalResponse oc], true⟩)

/-! ## Hub.Send (src/unnamed/part_003)

`Hub.Send` looks the agent up in the directory (under the lock, released
before blocking), checks authorization of the connection's observed key,
then races the mailbox enqueue against `time.After(timeout)`.  Whether the
mailbox accepts the message within the timeout depends on the dispatch
goroutine's progress; that race is the `enqueued` oracle. -/

/-- The per-agent connection as `Hub.Send` sees it: the identity and the
public key observed at registration (`h.keys.publicKeyUsed`, which can be
nil). -/
structure connection where
  identity : String
  key : Option Key

/-- A Hub: the agent directory and the KeyMaster.  (`Listen` installs the
maps; the fields the dispatch path never reads are omitted.) -/
structure Hub where
  agents : String → Option connection
  keys : KeyMaster

/-- What `Hub.Send` returns: either the fresh Message's responses channel
(identified here by the payload the Message carries) or a synchronous
error with the `fmt.Errorf` message the code builds. -/
inductive SendResult where
  | channel (payload : List Nat)
  | sendError (msg : String)
deriving DecidableEq, Repr

/-- Models `Hub.Send` from part_003.  `timeoutSecs` is `int(timeout.Seconds())`;
`enqueued` is the select-race oracle: whether the connection's mailbox
accepted the Message before the timer fired. -/
def Hub.Send (h : Hub) (agent : String) (message : List Nat)
    (timeoutSecs : Nat) (enqueued : Bool) : SendResult :=
  match h.agents agent with
  | some c =>
    if h.keys.Authorized agent c.key then
      if enqueued then SendResult.channel message
      else SendResult.sendError ("agent did not respond within " ++ toString timeoutSecs ++ "s")
    else SendResult.sendError ("agent found but not authorized: " ++ agent)
  | none => SendResult.sendError ("agent not found: " ++ agent)

/-- Models `Hub.AuthorizeKey` from part_003: delegate to the KeyMaster. -/
def Hub.AuthorizeKey (h : Hub) (agent : String) (key : Option Key) : Hub :=
  { h with keys := h.keys.Authorize key [agent] }

/-- Models `Hub.DeauthorizeKey` from part_003: delegate to the KeyMaster. -/
def Hub.DeauthorizeKey (h : Hub) (agent : String) (key : Option Key) : Hub :=
  { h with keys := h.keys.Deauthorize key [agent] }

/-! ## connection.Hangup (src/bail.go)

The hangup channel is `make(chan int, 1)` (Hub.register) and `hungup` is
the zero-value `false`.  Go channel semantics: a send on a closed channel
panics (checked before blocking); a send on a full buffer with no ready
receiver blocks. -/

/-- The state of the buffered hangup channel. -/
structure hangupChan where
  buffered : List Int
  closed : Bool
deriving DecidableEq, Repr

/-- Result of a Go channel send. -/
inductive ChanSendResult where
  | sent (ch : hangupChan)
  | blocked
  | panicked
deriving DecidableEq, Repr

/-- One Go channel send with the given buffer capacity: panic when the
channel is closed, buffer when there is room, otherwise block. -/
def chanSend (ch : hangupChan) (v : Int) (cap : Nat) : ChanSendResult :=
  if ch.closed then ChanSendResult.panicked
  else if ch.buffered.length < cap then ChanSendResult.sent { ch with buffered := ch.buffered ++ [v] }
  else ChanSendResult.blocked

/-- Models `close` on a Go channel. -/
def chanClose (ch : hangupChan) : hangupChan :=
  { ch with closed := true }

/-- The slice of connection state `Hangup` touches. -/
structure connHangup where
  hangup : hangupChan
  hungup : Bool
deriving DecidableEq, Repr

/-- Result of one `Hangup()` call. -/
inductive HangupResult where
  | ok (c : connHangup)
  | blocked
  | panicked
deriving DecidableEq, Repr

/-- Models `connection.Hangup` from bail.go, verbatim: when `hungup` is unset,
send 0 on the hangup channel, close the channel, then assign
`c.hungup = false` (the code assigns `false`, not `true`). -/
def connHangup.Hangup (c : connHangup) : HangupResult :=
  if !c.hungup then
    match chanSend c.hangup 0 1 with
    | ChanSendResult.sent ch => HangupResult.ok { hangup := chanClose ch, hungup := false }
    | ChanSendResult.blocked => HangupResult.blocked
    | ChanSendResult.panicked => HangupResult.panicked
  else HangupResult.ok c

/-- The hangup state of a freshly registered connection
(`hangup: make(chan int, 1)`, `hungup` zero-value). -/
def freshConnHangup : connHangup := ⟨⟨[], false⟩, false⟩

/-! ## connection.Serve dispatch loop (src/bail.go)

`Serve` reads Messages from the mailbox one at a time and calls `run`;
when `run` returns a non-nil error it calls `Hangup()` and breaks out of
the loop.  `run` opens a `session` channel (any failure is returned),
starts the exec (`session.start` closes the channel and returns the
error on failure), then lets `session.finish` emit the responses.  The
transport-dependent outcomes are oracles attached to each Message. -/

/-- Why `ssh.OpenChannel` failed. -/
inductive OpenErr where
  | eof
  | other (msg : String)
deriving DecidableEq, Repr

/-- One mailbox Message together with the oracles that decide the
transport-dependent branches while it is served: the channel-open result,
whether the exec request succeeded, the agent's output lines and session
requests, the reaper race, and which drain interleaving the scheduler
produced. -/
structure MsgOracle where
  payload : List Nat
  openResult : Option OpenErr
  execOk : Bool
  outs : List String
  errs : List String
  reqs : List SshRequest
  reaperFirst : Bool
  schedule : Nat
deriving Repr

/-- Everything observable about serving one Message: the history of its
responses channel, whether the SSH session channel ended up closed, and
whether `run` returned an error. -/
structure RunOutcome where
  responses : ChannelHist
  channelClosed : Bool
  errReturned : Bool
deriving DecidableEq, Repr, Inhabited

/-- Pick one possible channel history out of a set, by schedule index. -/
def pickHist (l : List ChannelHist) (n : Nat) : ChannelHist :=
  l.getD (n % l.length) default

/-- Models `connection.run` from bail.go: open the session channel (failure is
returned to `Serve` with nothing emitted), `session.start` the exec
(failure closes the channel and is returned with nothing emitted), else
`session.finish` produces the response history. -/
def connection.run (o : MsgOracle) : RunOutcome :=
  match o.openResult with
  | some _ => ⟨⟨[], false⟩, false, true⟩
  | none =>
    if !o.execOk then ⟨⟨[], false⟩, true, true⟩
    else
      ⟨pickHist (finishHists o.outs o.errs (sessionOutcome o.reqs o.reaperFirst)) o.schedule,
       true, false⟩

/-- Models the mailbox loop of `connection.Serve` from bail.go: serve Messages in
order; on the first `run` error call `Hangup()` and break.  Returns the
outcomes of the Messages actually taken plus whether the loop hung up. -/
def connection.Serve : List MsgOracle → List RunOutcome × Bool
  | [] => ([], false)
  | o :: rest =>
    let r := connection.run o
    if r.errReturned then ([r], true)
    else
      let t := connection.Serve rest
      (r :: t.1, t.2)

/-! ## KeyMaster (first generation, src/key_master.go)

The first-generation KeyMaster maps the marshalled key bytes
(`fmt.Sprintf("%v", key.Marshal())`) to a subject -> bool map.  For the
refinement comparison both generations are parametrised by an abstract
key type and their respective index functions. -/

/-- The first-generation KeyMaster state. -/
structure KeyMasterGen1 where
  keys : Option (String → Option (String → Option Bool))

/-- Lookup helper for the first-generation KeyMaster. -/
def KeyMasterGen1.lookup (m : KeyMasterGen1) (k s : String) : Option Bool :=
  match m.keys with
  | none => none
  | some keys =>
    match keys k with
    | none => none
    | some inner => inner s

/-- Gen-1 `KeyMaster.Authorize`: materialise the nil maps, then set every
subject's entry to `true`.  `marshal` is the gen-1 index function
(`fmt.Sprintf` of the marshalled key). -/
def KeyMasterGen1.Authorize {κ : Type} (marshal : κ → String) (m : KeyMasterGen1)
    (key : κ) (subjects : List String) : KeyMasterGen1 :=
  let k := marshal key
  let keys0 := m.keys.getD (fun _ => none)
  let inner0 := (keys0 k).getD (fun _ => none)
  let inner1 := subjects.foldl (fun inner s => fun t => if t = s then some true else inner t) inner0
  ⟨some (fun j => if j = k then some inner1 else keys0 j)⟩

/-- Gen-1 `KeyMaster.Deauthorize`: same shape, setting `false`. -/
def KeyMasterGen1.Deauthorize {κ : Type} (marshal : κ → String) (m : KeyMasterGen1)
    (key : κ) (subjects : List String) : KeyMasterGen1 :=
  let k := marshal key
  let keys0 := m.keys.getD (fun _ => none)
  let inner0 := (keys0 k).getD (fun _ => none)
  let inner1 := subjects.foldl (fun inner s => fun t => if t = s then some false else inner t) inner0
  ⟨some (fun j => if j = k then some inner1 else keys0 j)⟩

/-- Gen-1 `KeyMaster.Authorized`: `t, ok := m.keys[k][subject]; return t && ok`. -/
def KeyMasterGen1.Authorized {κ : Type} (marshal : κ → String) (m : KeyMasterGen1)
    (subject : String) (key : κ) : Bool :=
  match m.keys with
  | none => false
  | some keys =>
    match keys (marshal key) with
    | none => false
    | some inner => (inner subject).getD false

/-- An administrative call against a KeyMaster. -/
inductive AdminOp (κ : Type) where
  | authorize (key : κ) (subjects : List String)
  | deauthorize (key : κ) (subjects : List String)

/-- Run a sequence of administrative calls against a gen-1 KeyMaster. -/
def applyOpsGen1 {κ : Type} (marshal : κ → String) (ops : List (AdminOp κ))
    (m : KeyMasterGen1) : KeyMasterGen1 :=
  ops.foldl (fun m op =>
    match op with
    | AdminOp.authorize k subs => KeyMasterGen1.Authorize marshal m k subs
    | AdminOp.deauthorize k subs => KeyMasterGen1.Deauthorize marshal m k subs) m

/-- Run the same administrative calls against a final-generation
KeyMaster, indexing keys by the fingerprint function `fp`. -/
def applyOpsFinal {κ : Type} (fp : κ → String) (ops : List (AdminOp κ))
    (m : KeyMaster) : KeyMaster :=
  ops.foldl (fun m op =>
    match op with
    | AdminOp.authorize k subs => m.Authorize (some ⟨fp k⟩) subs
    | AdminOp.deauthorize k subs => m.Deauthorize (some ⟨fp k⟩) subs) m

/-! ## Agent channel handling (src/agent.go)

`Agent.Connect` loops over inbound new-channel requests.  A non-`session`
channel is rejected; the code then falls through to `Accept()`, which —
per the `x/crypto/ssh` contract that a NewChannel can be decided only
once — fails with "already decided" (no accept confirmation is sent), so
`Connect` logs the failure and returns.  A `session` channel is accepted
and its request loop runs: reply false to non-`exec` requests, and for the
first `exec` reply true, unmarshal the single SSH-string payload (skipping
the request on unmarshal failure) and hand the bytes to the Handler. -/

/-- The wire payload `session.start` (part_004) attaches to the `exec`
request: `ssh.Marshal(struct{ Command string }{payload})`. -/
def sessionStartWire (payload : List Nat) : List Nat :=
  sshMarshalString payload

/-- The payload the Agent's request loop delivers to the Handler: the
first `exec` request whose payload unmarshals (agent.go lines 135-151). -/
def agentFirstExecPayload : List SshRequest → Option (List Nat)
  | [] => none
  | r :: rs =>
    if r.rtype ≠ "exec" then agentFirstExecPayload rs
    else
      match sshUnmarshalBytes r.payload with
      | none => agentFirstExecPayload rs
      | some v => some v

/-- An inbound new-channel request as the Agent sees it: its type, the
requests that would arrive were it accepted, and whether `Accept` would
fail at the transport level. -/
structure NewChannel where
  chanType : String
  reqs : List SshRequest
  acceptFails : Bool
deriving DecidableEq, Repr

/-- What happened to one inbound channel: whether a rejection was sent,
whether an accept confirmation was sent, and whether its request loop was
serviced. -/
structure AgentChanOutcome where
  rejected : Bool
  accepted : Bool
  serviced : Bool
deriving DecidableEq, Repr

/-- The Agent's new-channel loop (agent.go lines 121-169).  A
non-`session` channel is rejected, and the fall-through `Accept` fails
("already decided"), upon which `Connect` returns — so the loop ends.  A
transport-level `Accept` failure likewise ends the loop.  Otherwise the
channel is accepted, serviced, closed, and the loop continues. -/
def agentChannelLoop : List NewChannel → List (NewChannel × AgentChanOutcome)
  | [] => []
  | nc :: rest =>
    if nc.chanType ≠ "session" then [(nc, ⟨true, false, false⟩)]
    else if nc.acceptFails then [(nc, ⟨false, false, false⟩)]
    else (nc, ⟨false, true, true⟩) :: agentChannelLoop rest

/-! ## Helper lemmas -/

theorem bigEndianUint32_toBE4 (n : Nat) : bigEndianUint32 (toBE4 n) = some (n % 2 ^ 32) := by
  simp only [toBE4, bigEndianUint32]
  congr 1
  omega

theorem track_strict (m : KeyMaster) (key : Key) (disp : disposition) (subs : List String) :
    ((m.track key disp subs).1).strict = m.strict := rfl

theorem trackFold_cons (key : Key) (disp : disposition) (s : String) (rest : List String)
    (inner : String → Option authorization) :
    trackFold key disp (s :: rest) inner = trackFold key disp rest (trackStep key disp inner s) := rfl

theorem trackStep_apply_ne (key : Key) (disp : disposition)
    (inner : String → Option authorization) (s t : String) (h : t ≠ s) :
    trackStep key disp inner s t = inner t := by
  simp only [trackStep]
  cases h1 : inner s <;> by_cases hd : disp = disposition.UnknownDisposition <;>
    simp [h1, hd, h]

theorem trackStep_self_unknown (key : Key) (inner : String → Option authorization) (s : String) :
    trackStep key disposition.UnknownDisposition inner s s =
      some ((inner s).getD ⟨disposition.UnknownDisposition, key⟩) := by
  simp only [trackStep]
  cases h1 : inner s <;> simp [h1]

theorem trackStep_self_disp (key : Key) (disp : disposition)
    (inner : String → Option authorization) (s : String)
    (hd : disp ≠ disposition.UnknownDisposition) :
    (trackStep key disp inner s s).map authorization.disposition = some disp := by
  simp only [trackStep]
  cases h1 : inner s <;> simp [h1, hd]

theorem trackFold_unknown_apply (key : Key) (subs : List String)
    (inner : String → Option authorization) (t : String) :
    trackFold key disposition.UnknownDisposition subs inner t =
      if t ∈ subs ∧ inner t = none then some ⟨disposition.UnknownDisposition, key⟩
      else inner t := by
  induction subs generalizing inner with
  | nil => simp [trackFold]
  | cons s rest ih =>
    rw [trackFold_cons, ih]
    by_cases hts : t = s
    · subst hts
      rw [trackStep_self_unknown]
      cases h1 : inner t with
      | none => simp [h1]
      | some a => simp [h1]
    · rw [trackStep_apply_ne _ _ _ _ _ hts]
      simp [List.mem_cons, hts]

theorem trackFold_disp_apply (key : Key) (disp : disposition) (subs : List String)
    (inner : String → Option authorization) (t : String)
    (hd : disp ≠ disposition.UnknownDisposition) :
    (trackFold key disp subs inner t).map authorization.disposition =
      if t ∈ subs then some disp else (inner t).map authorization.disposition := by
  induction subs generalizing inner with
  | nil => simp [trackFold]
  | cons s rest ih =>
    rw [trackFold_cons, ih]
    by_cases hts : t = s
    · subst hts
      by_cases h2 : t ∈ rest
      · simp [h2, List.mem_cons]
      · simp [h2, List.mem_cons, trackStep_self_disp _ _ _ _ hd]
    · rw [trackStep_apply_ne _ _ _ _ _ hts]
      simp [List.mem_cons, hts]

theorem lookup_track (m : KeyMaster) (key : Key) (disp : disposition) (subs : List String)
    (j s : String) :
    ((m.track key disp subs).1).lookup j s =
      if j = key.fp then trackFold key disp subs (fun t => m.lookup key.fp t) s
      else m.lookup j s := by
  have hinner : ((m.keys.getD (fun _ => none)) key.fp).getD (fun _ => none)
      = fun t => m.lookup key.fp t := by
    funext t
    cases hk : m.keys with
    | none => simp [KeyMaster.lookup, hk]
    | some keys => cases hkk : keys key.fp <;> simp [KeyMaster.lookup, hk, hkk]
  by_cases hj : j = key.fp
  · subst hj
    simp only [KeyMaster.track, KeyMaster.lookup, hinner]
    simp
  · simp only [KeyMaster.track, KeyMaster.lookup]
    simp only [hj, if_neg, ite_false]
    cases hk : m.keys with
    | none => simp [hk]
    | some keys => cases hkk : keys j <;> simp [hk, hkk]

theorem authorized_def (m : KeyMaster) (s : String) (key : Key) :
    m.authorized s key =
      decide ((m.lookup key.fp s).map authorization.disposition = some disposition.Authorized) := by
  obtain ⟨st, ks⟩ := m
  simp only [KeyMaster.authorized, KeyMaster.lookup]
  cases ks with
  | none => simp
  | some keys =>
    cases hkk : keys key.fp with
    | none => simp [hkk]
    | some inner =>
      cases hi : inner s with
      | none => simp [hkk, hi]
      | some v => simp [hkk, hi]

theorem authorized_track_unknown (m : KeyMaster) (key k' : Key) (subs : List String)
    (s : String) :
    ((m.track key disposition.UnknownDisposition subs).1).authorized s k'
      = m.authorized s k' := by
  rw [authorized_def, authorized_def, lookup_track]
  by_cases hj : k'.fp = key.fp
  · rw [if_pos hj, trackFold_unknown_apply]
    by_cases hc : s ∈ subs ∧ m.lookup key.fp s = none
    · rw [if_pos hc, hj, hc.2]
      simp
    · rw [if_neg hc, hj]
  · rw [if_neg hj]

theorem authorize_sets (m : KeyMaster) (key : Key) (subs : List String) (s : String)
    (hs : s ∈ subs) :
    (m.Authorize (some key) subs).authorized s key = true := by
  show ((m.track key disposition.Authorized subs).1).authorized s key = true
  rw [authorized_def, lookup_track, if_pos rfl,
    trackFold_disp_apply _ _ _ _ _ (by simp), if_pos hs]
  simp

theorem gen1_setFold_apply (v : Bool) (subs : List String)
    (inner : String → Option Bool) (t : String) :
    (subs.foldl (fun inner s => fun u => if u = s then some v else inner u) inner) t =
      if t ∈ subs then some v else inner t := by
  induction subs generalizing inner with
  | nil => simp
  | cons s rest ih =>
    rw [List.foldl_cons, ih]
    by_cases h1 : t ∈ rest <;> by_cases h2 : t = s <;> simp [h1, h2, List.mem_cons]

theorem gen1_lookup_authorize {κ : Type} (marshal : κ → String) (m : KeyMasterGen1)
    (key : κ) (subs : List String) (j s : String) :
    (KeyMasterGen1.Authorize marshal m key subs).lookup j s =
      if j = marshal key ∧ s ∈ subs then some true else m.lookup j s := by
  have hinner : ((m.keys.getD (fun _ => none)) (marshal key)).getD (fun _ => none)
      = fun t => m.lookup (marshal key) t := by
    funext t
    cases hk : m.keys with
    | none => simp [KeyMasterGen1.lookup, hk]
    | some keys => cases hkk : keys (marshal key) <;> simp [KeyMasterGen1.lookup, hk, hkk]
  by_cases hj : j = marshal key
  · subst hj
    simp only [KeyMasterGen1.Authorize, KeyMasterGen1.lookup, hinner]
    simp [gen1_setFold_apply]
  · simp only [KeyMasterGen1.Authorize, KeyMasterGen1.lookup]
    simp only [hj, ite_false, false_and, if_neg, not_false_iff]
    cases hk : m.keys with
    | none => simp [hk, hj]
    | some keys => cases hkk : keys j <;> simp [hk, hkk, hj]

theorem gen1_lookup_deauthorize {κ : Type} (marshal : κ → String) (m : KeyMasterGen1)
    (key : κ) (subs : List String) (j s : String) :
    (KeyMasterGen1.Deauthorize marshal m key subs).lookup j s =
      if j = marshal key ∧ s ∈ subs then some false else m.lookup j s := by
  have hinner : ((m.keys.getD (fun _ => none)) (marshal key)).getD (fun _ => none)
      = fun t => m.lookup (marshal key) t := by
    funext t
    cases hk : m.keys with
    | none => simp [KeyMasterGen1.lookup, hk]
    | some keys => cases hkk : keys (marshal key) <;> simp [KeyMasterGen1.lookup, hk, hkk]
  by_cases hj : j = marshal key
  · subst hj
    simp only [KeyMasterGen1.Deauthorize, KeyMasterGen1.lookup, hinner]
    simp [gen1_setFold_apply]
  · simp only [KeyMasterGen1.Deauthorize, KeyMasterGen1.lookup]
    simp only [hj, ite_false, false_and, if_neg, not_false_iff]
    cases hk : m.keys with
    | none => simp [hk, hj]
    | some keys => cases hkk : keys j <;> simp [hk, hkk, hj]

theorem gen1_authorized_def {κ : Type} (marshal : κ → String) (m : KeyMasterGen1)
    (subject : String) (key : κ) :
    KeyMasterGen1.Authorized marshal m subject key =
      decide (m.lookup (marshal key) subject = some true) := by
  obtain ⟨ks⟩ := m
  simp only [KeyMasterGen1.Authorized, KeyMasterGen1.lookup]
  cases ks with
  | none => simp
  | some keys =>
    cases hkk : keys (marshal key) with
    | none => simp [hkk]
    | some inner =>
      cases hi : inner subject with
      | none => simp [hkk, hi]
      | some b => cases b <;> simp [hkk, hi]

theorem mem_of_mem_interleavings {α : Type} :
    ∀ (xs ys t : List α), t ∈ interleavings xs ys → ∀ a ∈ t, a ∈ xs ∨ a ∈ ys
  | [], ys, t, ht, a, ha => by
      simp only [interleavings, List.mem_singleton] at ht
      subst ht
      exact Or.inr ha
  | x :: xs, [], t, ht, a, ha => by
      simp only [interleavings, List.mem_singleton] at ht
      subst ht
      exact Or.inl ha
  | x :: xs, y :: ys, t, ht, a, ha => by
      simp only [interleavings, List.mem_append, List.mem_map] at ht
      rcases ht with ⟨u, hu, rfl⟩ | ⟨u, hu, rfl⟩
      · rcases List.mem_cons.mp ha with rfl | ha'
        · exact Or.inl (List.mem_cons_self _ _)
        · rcases mem_of_mem_interleavings xs (y :: ys) u hu a ha' with h | h
          · exact Or.inl (List.mem_cons_of_mem _ h)
          · exact Or.inr h
      · rcases List.mem_cons.mp ha with rfl | ha'
        · exact Or.inr (List.mem_cons_self _ _)
        · rcases mem_of_mem_interleavings (x :: xs) ys u hu a ha' with h | h
          · exact Or.inl h
          · exact Or.inr (List.mem_cons_of_mem _ h)
termination_by xs ys _ _ _ _ => xs.length + ys.length
decreasing_by
  all_goals simp only [List.length_cons]
  all_goals omega

/-! ## Claims -/

/-- C9: the exit-code wire round trip is exact modulo 2^32: `exited`
encodes `rc` as 4 bytes big-endian of `uint32(rc)`; the hub's session
decodes the first four bytes big-endian, so decode(encode rc) is
`rc mod 2^32`, and for `0 <= rc < 2^32` the status captured from the
`exit-status` request carries exactly `rc` and the terminal Exit Response
records it. -/
theorem exit_code_roundtrip (rc : Int) :
    bigEndianUint32 (exited rc) = some ((rc % 2 ^ 32).toNat) ∧
    (0 ≤ rc → rc < 2 ^ 32 →
      serviceRequests [⟨"exit-status", false, exited rc⟩]
          = SvcResult.finished (some ⟨rc, none⟩) ∧
      finalResponse (Outcome.exitedWith ⟨rc, none⟩)
          = ⟨ResponseFrom.fromExit, "", none, rc⟩) := by
  have h1 : bigEndianUint32 (exited rc) = some ((rc % 2 ^ 32).toNat) := by
    rw [exited, bigEndianUint32_toBE4]
    congr 1
    omega
  refine ⟨h1, fun h0 hlt => ⟨?_, rfl⟩⟩
  simp [serviceRequests, h1]
  omega

/-- C9 witness: at `rc = 42` the status captured from the wire is 42. -/
theorem exit_code_roundtrip_witness :
    serviceRequests [⟨"exit-status", false, exited 42⟩]
      = SvcResult.finished (some ⟨42, none⟩) :=
  ((exit_code_roundtrip 42).2 (by decide) (by decide)).1

/-- C6: the exec payload round trip is exact: the hub marshals the Send
payload as a single SSH string (`session.start`), and the agent
unmarshals the same SSH string wrapper and hands exactly those bytes to
the Handler.  (The length prefix is a `uint32`, so payloads below 2^32
bytes — far beyond what an SSH packet can carry — round-trip verbatim.) -/
theorem exec_payload_roundtrip (p : List Nat) (hp : p.length < 2 ^ 32) :
    sshUnmarshalBytes (sessionStartWire p) = some p ∧
    agentFirstExecPayload [⟨"exec", true, sessionStartWire p⟩] = some p := by
  have h1 : sshUnmarshalBytes (sessionStartWire p) = some p := by
    simp only [sessionStartWire, sshMarshalString, toBE4, sshUnmarshalBytes, parseString,
      List.cons_append, List.nil_append]
    have hlen : p.length / 2 ^ 24 % 256 % 256 * 2 ^ 24 + p.length / 2 ^ 16 % 256 % 256 * 2 ^ 16
        + p.length / 2 ^ 8 % 256 % 256 * 2 ^ 8 + p.length % 256 % 256 = p.length := by
      omega
    rw [hlen, if_pos (le_refl _)]
    simp
  refine ⟨h1, ?_⟩
  simp only [agentFirstExecPayload]
  simp [h1]

/-- C6 witness: the two-byte payload "hi" round-trips. -/
theorem exec_payload_roundtrip_witness :
    sshUnmarshalBytes (sessionStartWire [104, 105]) = some [104, 105] :=
  (exec_payload_roundtrip [104, 105] (by decide)).1

/-- C2: `Hub.Send` fails synchronously with the agent-not-found error when
no connection is registered, with the not-authorized error when the
registered connection's observed key is not currently Authorized for the
identity, and otherwise returns the fresh Message's responses channel if
the mailbox accepts the Message within the timeout, or the timeout error
(and no channel) if it does not. -/
theorem hub_send_spec (h : Hub) (agent : String) (p : List Nat) (ts : Nat) (enq : Bool) :
    (h.agents agent = none →
      h.Send agent p ts enq = SendResult.sendError ("agent not found: " ++ agent)) ∧
    (∀ c, h.agents agent = some c → h.keys.Authorized agent c.key = false →
      h.Send agent p ts enq = SendResult.sendError ("agent found but not authorized: " ++ agent)) ∧
    (∀ c, h.agents agent = some c → h.keys.Authorized agent c.key = true →
      (enq = true → h.Send agent p ts enq = SendResult.channel p) ∧
      (enq = false → h.Send agent p ts enq =
        SendResult.sendError ("agent did not respond within " ++ toString ts ++ "s"))) := by
  refine ⟨fun hn => ?_, fun c hc ha => ?_, fun c hc ha => ⟨fun he => ?_, fun he => ?_⟩⟩
  · simp [Hub.Send, hn]
  · simp [Hub.Send, hc, ha]
  · simp [Hub.Send, hc, ha, he]
  · simp [Hub.Send, hc, ha, he]

/-- C2 witness: a hub with an empty directory reports agent-not-found. -/
theorem hub_send_spec_witness :
    Hub.Send ⟨fun _ => none, ⟨true, none⟩⟩ "bob" [104] 5 true
      = SendResult.sendError ("agent not found: " ++ "bob") :=
  (hub_send_spec ⟨fun _ => none, ⟨true, none⟩⟩ "bob" [104] 5 true).1 rfl

/-- C7: `KeyMaster.track` creates a record with disposition Unknown
(holding the observed key) the first time a (fingerprint, subject) pair is
seen; tracking with Unknown never changes an existing record; tracking
with Authorized or NotAuthorized always sets the record's disposition; and
`authorized` holds iff a record exists for that fingerprint and subject
with disposition Authorized. -/
theorem keymaster_track_spec (m : KeyMaster) (key : Key) (s : String) (d : disposition) :
    (m.lookup key.fp s = none →
      ((m.track key disposition.UnknownDisposition [s]).1).lookup key.fp s
        = some ⟨disposition.UnknownDisposition, key⟩) ∧
    (∀ a, m.lookup key.fp s = some a →
      ((m.track key disposition.UnknownDisposition [s]).1).lookup key.fp s = some a) ∧
    (d ≠ disposition.UnknownDisposition →
      (((m.track key d [s]).1).lookup key.fp s).map authorization.disposition = some d) ∧
    (m.authorized s key = true ↔
      ∃ a, m.lookup key.fp s = some a ∧ a.disposition = disposition.Authorized) := by
  refine ⟨fun hn => ?_, fun a ha => ?_, fun hd => ?_, ?_⟩
  · rw [lookup_track, if_pos rfl, trackFold_unknown_apply]
    simp [hn]
  · rw [lookup_track, if_pos rfl, trackFold_unknown_apply]
    simp [ha]
  · rw [lookup_track, if_pos rfl, trackFold_disp_apply _ _ _ _ _ hd]
    simp
  · rw [authorized_def]
    simp [Option.map_eq_some']

/-- C7 witness: a first observation under disposition Unknown creates the
Unknown record holding the key. -/
theorem keymaster_track_spec_witness :
    ((({ strict := true, keys := none } : KeyMaster).track ⟨"SHA256:abc"⟩
        disposition.UnknownDisposition ["bob"]).1).lookup "SHA256:abc" "bob"
      = some ⟨disposition.UnknownDisposition, ⟨"SHA256:abc"⟩⟩ :=
  (keymaster_track_spec { strict := true, keys := none } ⟨"SHA256:abc"⟩ "bob"
    disposition.Authorized).1 rfl

/-- C3: the server auth callback records the observed key under the
connecting user with disposition Unknown when not already tracked (leaving
an existing record untouched), returns permissions carrying the key's
fingerprint under the extension name `sfab-pubkey`, and returns a non-nil
error (rejecting the handshake) exactly when the KeyMaster is strict and
the (user, key) pair is not Authorized.  Hence in non-strict mode the
callback always succeeds, a registered-but-unauthorized agent gets the
not-authorized error from `Hub.Send`, and `Authorize` flips the pair to
Authorized. -/
theorem userKeyCallback_spec (m : KeyMaster) (user : String) (key : Key) :
    ((m.userKeyCallback user key).2.1 = ⟨[(PublicKeyExtensionName, key.fp)]⟩) ∧
    (m.lookup key.fp user = none →
      ((m.userKeyCallback user key).1).lookup key.fp user
        = some ⟨disposition.UnknownDisposition, key⟩) ∧
    (∀ a, m.lookup key.fp user = some a →
      ((m.userKeyCallback user key).1).lookup key.fp user = some a) ∧
    ((m.userKeyCallback user key).2.2 ≠ none ↔
      (m.strict = true ∧ m.authorized user key = false)) ∧
    (m.strict = false → (m.userKeyCallback user key).2.2 = none) ∧
    (∀ (hub : Hub) (c : connection), hub.agents user = some c →
      hub.keys.Authorized user c.key = false →
      ∀ p ts enq, hub.Send user p ts enq =
        SendResult.sendError ("agent found but not authorized: " ++ user)) ∧
    ((m.Authorize (some key) [user]).authorized user key = true) := by
  have hkm : (m.userKeyCallback user key).1
      = (m.track key disposition.UnknownDisposition [user]).1 := rfl
  have herr : (m.userKeyCallback user key).2.2
      = if m.strict && !(m.authorized user key) then some "unknown or unauthorized agent key"
        else none := by
    show (if ((m.track key disposition.UnknownDisposition [user]).1).strict
        && !(((m.track key disposition.UnknownDisposition [user]).1).authorized user key)
        then some "unknown or unauthorized agent key" else none) = _
    rw [track_strict, authorized_track_unknown]
  refine ⟨rfl, ?_, ?_, ?_, ?_, ?_, ?_⟩
  · intro hn
    rw [hkm, lookup_track, if_pos rfl, trackFold_unknown_apply]
    simp [hn]
  · intro a ha
    rw [hkm, lookup_track, if_pos rfl, trackFold_unknown_apply]
    simp [ha]
  · rw [herr]
    cases hs : m.strict <;> cases ha : m.authorized user key <;> simp
  · intro hs
    rw [herr, hs]
    simp
  · intro hub c hc ha p ts enq
    simp [Hub.Send, hc, ha]
  · exact authorize_sets m key [user] user (List.mem_singleton.mpr rfl)

/-- C3 witness: on a strict KeyMaster with no records, the callback for
("bob", key) rejects the handshake and stores the fingerprint extension. -/
theorem userKeyCallback_spec_witness :
    (({ strict := true, keys := none } : KeyMaster).userKeyCallback "bob" ⟨"SHA256:abc"⟩).2.1
      = ⟨[(PublicKeyExtensionName, "SHA256:abc")]⟩ ∧
    (({ strict := true, keys := none } : KeyMaster).userKeyCallback "bob" ⟨"SHA256:abc"⟩).2.2
      ≠ none :=
  ⟨(userKeyCallback_spec { strict := true, keys := none } "bob" ⟨"SHA256:abc"⟩).1,
   (userKeyCallback_spec { strict := true, keys := none } "bob"
      ⟨"SHA256:abc"⟩).2.2.2.1.mpr ⟨rfl, rfl⟩⟩

/-- C5: contrary to this claim (and to the method's own documentation),
`connection.Hangup` is not idempotent: the code assigns `hungup = false`
after the first call instead of `true`, so a second non-interleaved call
re-enters the guarded block and sends on the already-closed hangup
channel, which panics — whether or not the monitor has drained the
buffered value in between. -/
theorem hangup_second_call_panics :
    freshConnHangup.Hangup = HangupResult.ok ⟨⟨[0], true⟩, false⟩ ∧
    connHangup.Hangup ⟨⟨[0], true⟩, false⟩ = HangupResult.panicked ∧
    connHangup.Hangup ⟨⟨[], true⟩, false⟩ = HangupResult.panicked := by
  refine ⟨?_, ?_, ?_⟩ <;> rfl

/-- C4 counterexample: with a Message whose channel open fails with a
non-EOF error followed by a well-behaved Message, the claim predicts that
a terminal Error Response is emitted for the first Message and that the
loop continues to the second; in the code `run` returns the error, so
`Serve` calls `Hangup()` and breaks — one Message processed, nothing
emitted on its responses channel. -/
theorem dispatch_open_failure_counterexample :
    ¬ ((connection.Serve [⟨[104], some (OpenErr.other "boom"), true, [], [], [], false, 0⟩,
          ⟨[104], none, true, [], [], [⟨"exit-status", false, [0, 0, 0, 0]⟩], false, 0⟩]).1.length = 2 ∧
       ∃ r ∈ ((connection.Serve [⟨[104], some (OpenErr.other "boom"), true, [], [], [], false, 0⟩,
          ⟨[104], none, true, [], [], [⟨"exit-status", false, [0, 0, 0, 0]⟩], false, 0⟩]).1.headI).responses.sent,
          r.IsError = true) := by
  decide

/-- C4 amended: in the dispatch loop, any channel-open failure (EOF or
otherwise) and any exec failure make `run` return an error, upon which the
connection hangs up and the loop stops; no Response is emitted on that
Message's responses channel and it is not closed; on an exec failure the
session channel is closed first (`session.start`), while on an open
failure no session channel exists. -/
theorem dispatch_failure_hangs_up (o : MsgOracle) (rest : List MsgOracle)
    (hfail : o.openResult ≠ none ∨ o.execOk = false) :
    connection.Serve (o :: rest) = ([connection.run o], true) ∧
    (connection.run o).responses = ⟨[], false⟩ ∧
    (o.openResult = none → (connection.run o).channelClosed = true) := by
  cases ho : o.openResult with
  | some e =>
    have hr : connection.run o = ⟨⟨[], false⟩, false, true⟩ := by
      simp [connection.run, ho]
    refine ⟨?_, by rw [hr], fun hn => nomatch hn⟩
    simp [connection.Serve, hr]
  | none =>
    have hex : o.execOk = false := by
      rcases hfail with hf | hf
      · exact absurd ho hf
      · exact hf
    have hr : connection.run o = ⟨⟨[], false⟩, true, true⟩ := by
      simp [connection.run, ho, hex]
    refine ⟨?_, by rw [hr], fun _ => by rw [hr]⟩
    simp [connection.Serve, hr]

/-- C4 witness: a single Message whose channel open fails with EOF ends
the loop with a hangup and an untouched responses channel. -/
theorem dispatch_failure_hangs_up_witness :
    connection.Serve [⟨[104], some OpenErr.eof, true, [], [], [], false, 0⟩]
      = ([⟨⟨[], false⟩, false, true⟩], true) :=
  (dispatch_failure_hangs_up ⟨[104], some OpenErr.eof, true, [], [], [], false, 0⟩ []
    (Or.inl (by simp))).1

/-- C8: in the Agent's new-channel loop, every channel whose type is not
"session" is rejected, gets no accept confirmation and has none of its
requests serviced (the fall-through `Accept` fails with "already decided"
per the ssh-library once-only decision rule); a channel is accepted and
serviced only when its type is "session". -/
theorem agent_channel_discipline (chans : List NewChannel) :
    ∀ p ∈ agentChannelLoop chans,
      (p.1.chanType ≠ "session" →
        p.2.rejected = true ∧ p.2.accepted = false ∧ p.2.serviced = false) ∧
      (p.2.accepted = true → p.1.chanType = "session") := by
  induction chans with
  | nil => intro p hp; simp [agentChannelLoop] at hp
  | cons nc rest ih =>
    intro p hp
    by_cases hty : nc.chanType = "session"
    · by_cases haf : nc.acceptFails
      · simp only [agentChannelLoop, hty] at hp
        simp [haf] at hp
        subst hp
        exact ⟨fun hne => absurd hty hne, fun hacc => by simp at hacc⟩
      · simp only [agentChannelLoop, hty] at hp
        simp [haf] at hp
        rcases hp with rfl | hp'
        · exact ⟨fun hne => absurd hty hne, fun _ => hty⟩
        · exact ih p hp'
    · simp only [agentChannelLoop] at hp
      simp [hty] at hp
      subst hp
      exact ⟨fun _ => ⟨rfl, rfl, rfl⟩, fun hacc => by simp at hacc⟩

/-- C8 witness: a "direct-tcpip" channel is rejected, unaccepted and
unserviced. -/
theorem agent_channel_discipline_witness :
    ((⟨"direct-tcpip", [], false⟩ : NewChannel),
      (⟨true, false, false⟩ : AgentChanOutcome)).2.rejected = true :=
  ((agent_channel_discipline [⟨"direct-tcpip", [], false⟩]
      (⟨"direct-tcpip", [], false⟩, ⟨true, false, false⟩) (by decide)).1 (by decide)).1

/-- C1: every response-channel history `session.finish` can produce
consists of zero or more non-terminal Stdout/Stderr Responses followed by
exactly one terminal Response — Exit precisely when the exit channel won
the select race with a normal `exit-status` status, Error on an
`exit-signal` status or when the reaper fired first — after which the
channel is closed.  The well-formedness hypothesis excludes the Go panic
on an `exit-status` request with a short payload (which would kill the
process). -/
theorem session_responses_spec (outs errs : List String) (reqs : List SshRequest) (rf : Bool)
    (hwf : serviceRequests reqs ≠ SvcResult.panicked)
    (hist : ChannelHist) (hmem : hist ∈ finishHists outs errs (sessionOutcome reqs rf)) :
    hist.closed = true ∧
    (∀ r ∈ hist.sent.dropLast,
      (r.IsStdout = true ∨ r.IsStderr = true) ∧ r.IsExit = false ∧ r.IsError = false) ∧
    (∃ fin, hist.sent.getLast? = some fin ∧
      (fin.IsExit = true ∨ fin.IsError = true) ∧
      (fin.IsExit = true ↔ rf = false ∧
        ∃ st, serviceRequests reqs = SvcResult.finished (some st) ∧ st.err = none)) := by
  simp only [finishHists, List.mem_map] at hmem
  obtain ⟨t, ht, rfl⟩ := hmem
  refine ⟨rfl, ?_, ?_⟩
  · intro r hr
    rw [List.dropLast_concat] at hr
    rcases mem_of_mem_interleavings _ _ _ ht r hr with hmem | hmem
    · simp only [drain, List.mem_map] at hmem
      obtain ⟨l, _, rfl⟩ := hmem
      exact ⟨Or.inl rfl, rfl, rfl⟩
    · simp only [drain, List.mem_map] at hmem
      obtain ⟨l, _, rfl⟩ := hmem
      exact ⟨Or.inr rfl, rfl, rfl⟩
  · refine ⟨finalResponse (sessionOutcome reqs rf), List.getLast?_concat _, ?_, ?_⟩
    · cases hoc : sessionOutcome reqs rf with
      | exitedWith st =>
        cases hse : st.err with
        | some e =>
          right
          simp [finalResponse, hse, Response.IsError]
        | none =>
          left
          simp [finalResponse, hse, Response.IsExit]
      | reaped =>
        right
        simp [finalResponse, Response.IsError]
    · cases hsr : serviceRequests reqs with
      | panicked => exact absurd hsr hwf
      | finished ost =>
        cases ost with
        | none =>
          have hoc : sessionOutcome reqs rf = Outcome.reaped := by
            simp [sessionOutcome, hsr]
          rw [hoc]
          constructor
          · intro hx
            simp [finalResponse, Response.IsExit] at hx
          · rintro ⟨_, st, hst, _⟩
            simp at hst
        | some st =>
          cases rf with
          | true =>
            have hoc : sessionOutcome reqs true = Outcome.reaped := by
              simp [sessionOutcome, hsr]
            rw [hoc]
            constructor
            · intro hx
              simp [finalResponse, Response.IsExit] at hx
            · rintro ⟨hrf, _⟩
              cases hrf
          | false =>
            have hoc : sessionOutcome reqs false = Outcome.exitedWith st := by
              simp [sessionOutcome, hsr]
            rw [hoc]
            cases hse : st.err with
            | some e =>
              constructor
              · intro hx
                simp [finalResponse, hse, Response.IsExit] at hx
              · rintro ⟨_, st', hst', hse'⟩
                have : st = st' := by
                  simpa using hst'
                rw [← this] at hse'
                rw [hse] at hse'
                cases hse'
            | none =>
              constructor
              · intro _
                exact ⟨rfl, st, rfl, hse⟩
              · intro _
                simp [finalResponse, hse, Response.IsExit]

/-- C1 witness: one stdout line followed by a normal exit-status yields a
closed history whose last Response is the Exit. -/
theorem session_responses_spec_witness :
    (⟨[⟨ResponseFrom.fromStdout, "hi", none, 0⟩, ⟨ResponseFrom.fromExit, "", none, 0⟩], true⟩
      : ChannelHist).closed = true :=
  (session_responses_spec ["hi"] [] [⟨"exit-status", false, [0, 0, 0, 0]⟩] false (by decide)
    ⟨[⟨ResponseFrom.fromStdout, "hi", none, 0⟩, ⟨ResponseFrom.fromExit, "", none, 0⟩], true⟩
    (by simp [finishHists, interleavings, drain, sessionOutcome, serviceRequests,
      bigEndianUint32, finalResponse])).1

/-- C10: the first-generation KeyMaster (marshalled-key -> subject ->
bool) and the final-generation KeyMaster (fingerprint -> subject ->
authorization record) are observationally equivalent on the administrative
interface: starting from empty states, after any finite sequence of
Authorize/Deauthorize calls both answer every `Authorized(subject, key)`
query identically, provided the two index functions (the marshalled key
bytes and the SHA-256 fingerprint) distinguish keys. -/
theorem keymaster_generations_equiv {κ : Type} (marshal fp : κ → String)
    (hm : Function.Injective marshal) (hf : Function.Injective fp)
    (ops : List (AdminOp κ)) (subject : String) (key : κ) (strict : Bool) :
    KeyMasterGen1.Authorized marshal (applyOpsGen1 marshal ops ⟨none⟩) subject key =
      (applyOpsFinal fp ops ⟨strict, none⟩).Authorized subject (some ⟨fp key⟩) := by
  have lookup_auth_final : ∀ (m : KeyMaster) (key' : κ) (subs : List String) (j s : String),
      ((m.Authorize (some ⟨fp key'⟩) subs).lookup j s).map authorization.disposition =
        if j = fp key' ∧ s ∈ subs then some disposition.Authorized
        else (m.lookup j s).map authorization.disposition := by
    intro m key' subs j s
    show (((m.track ⟨fp key'⟩ disposition.Authorized subs).1).lookup j s).map _ = _
    rw [lookup_track]
    by_cases hj : j = fp key'
    · rw [if_pos hj, trackFold_disp_apply _ _ _ _ _ (by simp)]
      by_cases hs : s ∈ subs <;> simp [hj, hs]
    · rw [if_neg hj]
      simp [hj]
  have lookup_deauth_final : ∀ (m : KeyMaster) (key' : κ) (subs : List String) (j s : String),
      ((m.Deauthorize (some ⟨fp key'⟩) subs).lookup j s).map authorization.disposition =
        if j = fp key' ∧ s ∈ subs then some disposition.NotAuthorized
        else (m.lookup j s).map authorization.disposition := by
    intro m key' subs j s
    show (((m.track ⟨fp key'⟩ disposition.NotAuthorized subs).1).lookup j s).map _ = _
    rw [lookup_track]
    by_cases hj : j = fp key'
    · rw [if_pos hj, trackFold_disp_apply _ _ _ _ _ (by simp)]
      by_cases hs : s ∈ subs <;> simp [hj, hs]
    · rw [if_neg hj]
      simp [hj]
  have main : ∀ (l : List (AdminOp κ)) (m1 : KeyMasterGen1) (mF : KeyMaster),
      (∀ (k : κ) (s : String),
        (mF.lookup (fp k) s).map authorization.disposition =
          (m1.lookup (marshal k) s).map
            (fun b => if b then disposition.Authorized else disposition.NotAuthorized)) →
      ∀ (k : κ) (s : String),
        ((applyOpsFinal fp l mF).lookup (fp k) s).map authorization.disposition =
          ((applyOpsGen1 marshal l m1).lookup (marshal k) s).map
            (fun b => if b then disposition.Authorized else disposition.NotAuthorized) := by
    intro l
    induction l with
    | nil => intro m1 mF hInv k s; exact hInv k s
    | cons op rest ih =>
      intro m1 mF hInv k s
      cases op with
      | authorize key' subs =>
        apply ih
        intro k' s'
        rw [lookup_auth_final, gen1_lookup_authorize]
        by_cases hc : s' ∈ subs
        · by_cases hk : k' = key'
          · subst hk
            simp [hc]
          · have h1 : ¬ fp k' = fp key' := fun hh => hk (hf hh)
            have h2 : ¬ marshal k' = marshal key' := fun hh => hk (hm hh)
            simp [h1, h2, hInv k' s']
        · simp [hc, hInv k' s']
      | deauthorize key' subs =>
        apply ih
        intro k' s'
        rw [lookup_deauth_final, gen1_lookup_deauthorize]
        by_cases hc : s' ∈ subs
        · by_cases hk : k' = key'
          · subst hk
            simp [hc]
          · have h1 : ¬ fp k' = fp key' := fun hh => hk (hf hh)
            have h2 : ¬ marshal k' = marshal key' := fun hh => hk (hm hh)
            simp [h1, h2, hInv k' s']
        · simp [hc, hInv k' s']
  have h0 : ∀ (k : κ) (s : String),
      ((⟨strict, none⟩ : KeyMaster).lookup (fp k) s).map authorization.disposition =
        ((⟨none⟩ : KeyMasterGen1).lookup (marshal k) s).map
          (fun b => if b then disposition.Authorized else disposition.NotAuthorized) := by
    intro k s
    simp [KeyMaster.lookup, KeyMasterGen1.lookup]
  have hmain := main ops ⟨none⟩ ⟨strict, none⟩ h0 key subject
  rw [gen1_authorized_def]
  have hfinal : (applyOpsFinal fp ops ⟨strict, none⟩).Authorized subject (some ⟨fp key⟩)
      = decide (((applyOpsFinal fp ops ⟨strict, none⟩).lookup (fp key) subject).map
          authorization.disposition = some disposition.Authorized) := by
    show (applyOpsFinal fp ops ⟨strict, none⟩).authorized subject ⟨fp key⟩ = _
    rw [authorized_def]
  rw [hfinal, hmain]
  cases hl : (applyOpsGen1 marshal ops ⟨none⟩).lookup (marshal key) subject with
  | none => simp
  | some b => cases b <;> simp

/-- C10 witness: a single `Authorize("K1", "bob")` on both generations
gives the same answer to `Authorized("bob", "K1")` (with identity index
functions over string-named keys). -/
theorem keymaster_generations_equiv_witness :
    KeyMasterGen1.Authorized id (applyOpsGen1 id [AdminOp.authorize "K1" ["bob"]] ⟨none⟩)
        "bob" "K1" =
      (applyOpsFinal id [AdminOp.authorize "K1" ["bob"]] ⟨true, none⟩).Authorized
        "bob" (some ⟨id "K1"⟩) :=
  keymaster_generations_equiv id id (fun _ _ hh => hh) (fun _ _ hh => hh)
    [AdminOp.authorize "K1" ["bob"]] "bob" "K1" true
